import Mathlib

/-!
Shallow embedding of `src/download_tces.py` (TESS light-curve downloader):

* `download_tess_data` (lines 41-60): a retry loop over the search-then-
  download body, classifying exceptions as transient
  (`ConnectionError`/`TimeoutError`, retried with `3 * (attempt+1)` seconds
  of backoff) or permanent (return `None` immediately); a search with zero
  matches also returns `None` immediately.
* `worker` (lines 62-73): wraps `download_tess_data` for one task and
  converts any exception into `None`.
* `main` (lines 75-140): creates the `LightCurves` table with
  `UNIQUE (TIC, sector)`, replaces the `TOIs` table from the catalog file,
  builds the task list (dropping rows whose `Sectors` value is `None`),
  feeds worker results into an upsert sink that commits every 100 inserted
  records plus a final commit, and closes the connection in a `finally`
  block.

Effects (sleeps, SQL statements, commits) are made observable as data so
that the retry/backoff schedule, the transaction boundaries and the
persisted table contents can be stated and proved.
-/

set_option maxRecDepth 10000

namespace DownloadLCS

/-- Outcome of one iteration of the retry-loop body inside
`download_tess_data`: `noData` models a search with zero matches
(`len(search) == 0`), `success p` models a completed download whose cached
artifact path is `p`, `transient` models a `ConnectionError`/`TimeoutError`
raised by the body, and `permanent` models any other exception class. -/
inductive AttemptOutcome where
  | noData : AttemptOutcome
  | success : String → AttemptOutcome
  | transient : AttemptOutcome
  | permanent : AttemptOutcome
deriving DecidableEq, Repr

/-- Observable behaviour of one call to `download_tess_data`: the returned
value (`none` models Python `None`), the number of loop iterations
(attempts) actually executed, and the total backoff slept via
`time.sleep`, in seconds. -/
structure FetchTrace where
  result : Option String
  attemptsMade : Nat
  totalSleep : Nat
deriving DecidableEq, Repr

/-- The `for attempt in range(max_retries)` loop of `download_tess_data`,
entered at iteration index `attempt` with `fuel` iterations remaining.
Each iteration consults `env attempt`, the outcome of the body on that
attempt.  A transient failure sleeps `3 * (attempt + 1)` seconds when
`attempt < max_retries - 1` (the guard in the code before `time.sleep`) and
continues; `noData`, `success` and `permanent` all leave the loop at once.
Falling off the end of the loop returns `None`. -/
def downloadFrom (env : Nat → AttemptOutcome) (maxRetries : Nat) :
    Nat → Nat → FetchTrace
  | _, 0 => ⟨none, 0, 0⟩
  | attempt, fuel + 1 =>
    match env attempt with
    | AttemptOutcome.noData => ⟨none, 1, 0⟩
    | AttemptOutcome.success p => ⟨some p, 1, 0⟩
    | AttemptOutcome.permanent => ⟨none, 1, 0⟩
    | AttemptOutcome.transient =>
      let sleep := if attempt < maxRetries - 1 then 3 * (attempt + 1) else 0
      let rest := downloadFrom env maxRetries (attempt + 1) fuel
      ⟨rest.result, rest.attemptsMade + 1, rest.totalSleep + sleep⟩

/-- Model of `download_tess_data(tic, sector, max_retries)`: run the retry
loop from iteration 0.  The call sites in the repository use the default
`max_retries = 3`. -/
def download_tess_data (env : Nat → AttemptOutcome) (maxRetries : Nat) :
    FetchTrace :=
  downloadFrom env maxRetries 0 maxRetries

/-- Per-task environment seen by one `worker` call: the attempt outcomes
driving its `download_tess_data` call, and whether the rest of the worker
body (the `lc.filename` access) raises.  The `try`/`except` of the worker
converts any such exception into `None`. -/
structure WorkerEnv where
  attempts : Nat → AttemptOutcome
  filenameExn : Bool

/-- Model of `worker(task)`: run `download_tess_data` for the
`(tic, sector)` of the task; on a non-`None` light curve return
`(tic, sector, file_path)`, otherwise (or if the body raises) return
`None`.  The function is total: every exception becomes `none`. -/
def worker (wenv : Nat × String → WorkerEnv) (task : Nat × String) :
    Option (Nat × String × String) :=
  match (download_tess_data (wenv task).attempts 3).result with
  | some path =>
    if (wenv task).filenameExn then none else some (task.1, task.2, path)
  | none => none

/-- Row of the `LightCurves` table: surrogate `id` plus the `TIC`,
`sector` and `path_to_fits` columns.  The `sector` column stores the raw
`Sectors` value from the catalog (SQLite is dynamically typed), so it is
modelled as a string. -/
structure Row where
  id : Nat
  TIC : Nat
  sector : String
  path_to_fits : String
deriving DecidableEq, Repr

/-- The `LightCurves` table as an ordered list of rows. -/
abbrev Table := List Row

/-- Successful fetch result delivered to the sink: `(tic, sector, path)`. -/
abbrev LCRecord := Nat × String × String

/-- Test used by the `UNIQUE (TIC, sector)` constraint: does `r` hold the
given key. -/
def rowMatches (tic : Nat) (sector : String) (r : Row) : Bool :=
  r.TIC == tic && r.sector == sector

/-- Whether the table already holds a row with key `(tic, sector)`. -/
def hasKey (t : Table) (tic : Nat) (sector : String) : Bool :=
  t.any (rowMatches tic sector)

/-- Model of
`INSERT INTO LightCurves ... ON CONFLICT(TIC, sector) DO UPDATE SET
path_to_fits = excluded.path_to_fits`: on a key conflict only the
`path_to_fits` field of the conflicting row is overwritten, otherwise a
fresh row is appended with the next surrogate id. -/
def upsert (t : Table) (nextId : Nat) (tic : Nat) (sector : String)
    (path : String) : Table × Nat :=
  if hasKey t tic sector then
    (t.map (fun r => if rowMatches tic sector r then
        ⟨r.id, r.TIC, r.sector, path⟩ else r), nextId)
  else
    (t ++ [⟨nextId, tic, sector, path⟩], nextId + 1)

/-- Fold a sequence of upserts over a table state. -/
def applyAll (st : Table × Nat) (recs : List LCRecord) : Table × Nat :=
  recs.foldl (fun st r => upsert st.1 st.2 r.1 r.2.1 r.2.2) st

/-- The uniqueness invariant of the `UNIQUE (TIC, sector)` constraint: no
two rows of the table share the `(TIC, sector)` key. -/
def UniqueKeys (t : Table) : Prop :=
  List.Pairwise (fun a b => a.TIC ≠ b.TIC ∨ a.sector ≠ b.sector) t

/-- Observable SQL-level action of the result-consuming loop in `main`:
`begin` a transaction, `insert` (the upsert statement) a record, or
`commit`. -/
inductive SinkEvent where
  | begin : SinkEvent
  | insert : Nat → String → String → SinkEvent
  | commit : SinkEvent
deriving DecidableEq, Repr

/-- State of the result sink: current (in-transaction) table and next
surrogate id, the durable table as of the last commit, the
`processed_count` counter, the emitted SQL events, and the values of
`processed_count` at each commit. -/
structure SinkState where
  table : Table
  nextId : Nat
  committed : Table
  count : Nat
  events : List SinkEvent
  commitPoints : List Nat
deriving DecidableEq, Repr

/-- One iteration of `for result in pool.imap_unordered(...)`: a `None`
result is skipped; otherwise the record is upserted, `processed_count` is
incremented, and when it reaches a multiple of 100 the transaction is
committed (making the table durable) and a new one begun. -/
def sinkStep (st : SinkState) (r : Option LCRecord) : SinkState :=
  match r with
  | none => st
  | some s =>
    let t := upsert st.table st.nextId s.1 s.2.1 s.2.2
    let c := st.count + 1
    let evs := st.events ++ [SinkEvent.insert s.1 s.2.1 s.2.2]
    if c % 100 = 0 then
      ⟨t.1, t.2, t.1, c, evs ++ [SinkEvent.commit, SinkEvent.begin],
        st.commitPoints ++ [c]⟩
    else
      ⟨t.1, t.2, st.committed, c, evs, st.commitPoints⟩

/-- Sink state at loop entry: empty table (schema freshly created and
committed), surrogate ids starting at 1, `processed_count = 0`, and the
initial `BEGIN TRANSACTION` already issued. -/
def initState : SinkState :=
  ⟨[], 1, [], 0, [SinkEvent.begin], []⟩

/-- Sink state after consuming `results`, without the final commit (the
state in which an interruption leaves the database: the open transaction
is rolled back on close, so only `committed` survives). -/
def consumeResults (results : List (Option LCRecord)) : SinkState :=
  results.foldl sinkStep initState

/-- The final `conn.commit()` after the loop: flushes the open transaction. -/
def finalCommit (st : SinkState) : SinkState :=
  ⟨st.table, st.nextId, st.table, st.count, st.events ++ [SinkEvent.commit],
    st.commitPoints ++ [st.count]⟩

/-- Full sink run on a stream of results: consume them all, then issue the
final commit. -/
def runSink (results : List (Option LCRecord)) : SinkState :=
  finalCommit (consumeResults results)

/-- Tabular catalog file as loaded by `pd.read_csv`: column names plus
rows of cell values aligned with the columns. -/
structure Df where
  columns : List String
  rows : List (List String)
deriving DecidableEq, Repr

/-- Model of `features = [col for col in df.columns if col != "Sectors"];
df[features]`: keep every column except `Sectors`, preserving row count
and order. -/
def selectFeatures (df : Df) : Df :=
  ⟨df.columns.filter (fun c => c != "Sectors"),
   df.rows.map (fun row =>
     ((df.columns.zip row).filter (fun p => p.1 != "Sectors")).map
       (fun p => p.2))⟩

/-- Model of `df.to_sql("TOIs", conn, if_exists="replace")`: any prior
contents of the table are dropped and replaced by `new`. -/
def toSqlReplace (_priorContents : Option Df) (new : Df) : Df :=
  new

/-- Model of `get_exo_tic_sectors()`: the `try` body yields the list of
`(tic_id, Sectors)` pairs read from the CSV; on any read or parse error
(`readResult = none`) the `except` clause returns the empty list instead
of raising. -/
def get_exo_tic_sectors (readResult : Option (List (Nat × Option String))) :
    List (Nat × Option String) :=
  match readResult with
  | some pairs => pairs
  | none => []

/-- Model of
`tasks = [(tic, sectors) for tic, sectors in test_exo if sectors is not None]`:
keep, in catalog order, exactly the rows whose `Sectors` value is not
`None`. -/
def buildTasks (catalog : List (Nat × Option String)) :
    List (Nat × String) :=
  catalog.filterMap (fun p =>
    match p.2 with
    | some s => some (p.1, s)
    | none => none)

/-- How the run ends: normal completion of the loop, `KeyboardInterrupt`
raised after `k` results were consumed, or an unexpected exception after
`k` results were consumed (the latter two are caught by the `except`
clauses of `main`). -/
inductive ExitMode where
  | normal : ExitMode
  | interruptedAfter : Nat → ExitMode
  | failedAfter : Nat → ExitMode
deriving DecidableEq, Repr

/-- Environment of one `main()` run: the prior contents of the `TOIs`
table, the result of the `pd.read_csv("tces.csv")` that `main` runs itself (`none` means
the read raises), the result of the read inside `get_exo_tic_sectors`,
the per-task worker environments, and how the run ends. -/
structure RunEnv where
  priorTois : Option Df
  toisRead : Option Df
  workRead : Option (List (Nat × Option String))
  wenv : Nat × String → WorkerEnv
  exit : ExitMode

/-- Observable effects of one `main()` run: whether the `LightCurves`
schema was created, the `TOIs` table contents after the run (`none` means
untouched and previously absent), the task list, the durable `LightCurves`
rows at exit, and how many times `conn.close()` ran. -/
structure RunEffects where
  schemaCreated : Bool
  tois : Option Df
  workList : List (Nat × String)
  persisted : Table
  closeCount : Nat
deriving Repr

/-- Model of `main()`.  The `LightCurves` schema is created and committed
first.  Then `main` itself reads the catalog CSV for the `TOIs` snapshot:
if that read raises, the exception propagates to the outer `except` and
the run ends with only the schema created (the `finally` still closes the
connection once).  Otherwise the `TOIs` table is replaced wholesale, the
work list is built through `get_exo_tic_sectors` (which fails softly to
`[]`), each task is mapped through `worker`, and the sink consumes the
results; an interruption or unexpected exception after `k` results leaves
only the data of the last commit durable, since the open transaction is
rolled back when the connection closes.  Every path runs `conn.close()`
exactly once in the `finally` block. -/
def mainRun (env : RunEnv) : RunEffects :=
  match env.toisRead with
  | none => ⟨true, env.priorTois, [], [], 1⟩
  | some df =>
    let tois := toSqlReplace env.priorTois (selectFeatures df)
    let tasks := buildTasks (get_exo_tic_sectors env.workRead)
    let results := tasks.map (worker env.wenv)
    match env.exit with
    | ExitMode.normal =>
      ⟨true, some tois, tasks, (runSink results).committed, 1⟩
    | ExitMode.interruptedAfter k =>
      ⟨true, some tois, tasks, (consumeResults (results.take k)).committed, 1⟩
    | ExitMode.failedAfter k =>
      ⟨true, some tois, tasks, (consumeResults (results.take k)).committed, 1⟩

/-- Worker environment in which every download succeeds at once with
cached path `"p"` and no exception is raised in the worker body. -/
def wenvAllSuccess : Nat × String → WorkerEnv :=
  fun _ => ⟨fun _ => AttemptOutcome.success "p", false⟩

/-- Small concrete catalog file: one row with a `tic_id`, a `Sectors`
value and one extra metadata column. -/
def dfSmall : Df :=
  ⟨["tic_id", "Sectors", "mag"], [["5", "2", "9"]]⟩

/-- Concrete contents of a `TOIs` table left over from an earlier run. -/
def dfPrior : Df :=
  ⟨["old"], [["x"]]⟩

/-- Run in which the catalog loads, one task succeeds, and a
`KeyboardInterrupt` arrives after the first result was consumed. -/
def envInterrupted : RunEnv :=
  ⟨none, some dfSmall, some [(5, some "2")], wenvAllSuccess,
    ExitMode.interruptedAfter 1⟩

/-- Run in which reading the catalog file fails (both reads would, but
the read in `main` happens first and raises). -/
def envReadFail : RunEnv :=
  ⟨none, none, none, wenvAllSuccess, ExitMode.normal⟩

/-- Same failing run, but with a `TOIs` snapshot left over from a prior
run. -/
def envReadFailPrior : RunEnv :=
  ⟨some dfPrior, none, none, wenvAllSuccess, ExitMode.normal⟩

/-- Run in which the catalog read inside `main` succeeds but the read inside
`get_exo_tic_sectors` fails (e.g. a parse error on the columns it
extracts), so the loader degrades to an empty work list. -/
def envParseFail : RunEnv :=
  ⟨none, some dfSmall, none, wenvAllSuccess, ExitMode.normal⟩

/-- Values of `processed_count` at which a mid-stream commit fires when
the counter runs from `c + 1` to `c + n`: exactly the multiples of 100 in
that range, in increasing order. -/
def pointsBetween (c : Nat) : Nat → List Nat
  | 0 => []
  | n + 1 =>
    (if (c + 1) % 100 = 0 then [c + 1] else []) ++ pointsBetween (c + 1) n

/-- Concrete stream of 250 successful fetch results with distinct keys. -/
def batch250 : List (Option LCRecord) :=
  (List.range 250).map (fun i => some (i, "s", "p"))

/-- The insert events for the records numbered `a, a+1, ..., a+n-1` of
`batch250`. -/
def insertsFrom (a n : Nat) : List SinkEvent :=
  (List.range n).map (fun i => SinkEvent.insert (a + i) "s" "p")

/-- Expected SQL event trace for `batch250`: commits after the 100th and
200th inserts, each followed by a fresh `BEGIN TRANSACTION`, and one final
commit covering the remaining 50. -/
def expected250 : List SinkEvent :=
  [SinkEvent.begin] ++ insertsFrom 0 100 ++
    [SinkEvent.commit, SinkEvent.begin] ++ insertsFrom 100 100 ++
    [SinkEvent.commit, SinkEvent.begin] ++ insertsFrom 200 50 ++
    [SinkEvent.commit]

theorem downloadFrom_attemptsMade_le (env : Nat → AttemptOutcome)
    (maxRetries : Nat) :
    ∀ fuel attempt, (downloadFrom env maxRetries attempt fuel).attemptsMade ≤ fuel := by
  intro fuel
  induction fuel with
  | zero => intro attempt; simp [downloadFrom]
  | succ n ih =>
    intro attempt
    cases h : env attempt <;> simp [downloadFrom, h]
    exact ih (attempt + 1)

/-- C2.  With `max_retries = 3`: at most 3 attempts are ever made; if every
attempt fails transiently the function returns `None` after exactly 3
attempts having slept `3 + 6 = 9` seconds (3s before the 2nd attempt, 6s
before the 3rd, none after the last); and if the first `k < 3` attempts
fail transiently and attempt `k` (0-based) succeeds, the result is the
downloaded path with `k + 1` attempts made and total backoff
`∑ 3 * n` over the 1-based failed attempt numbers `n = 1..k`. -/
theorem download_retry_backoff :
    (∀ env : Nat → AttemptOutcome,
      (download_tess_data env 3).attemptsMade ≤ 3) ∧
    (∀ env : Nat → AttemptOutcome,
      (∀ i, i < 3 → env i = AttemptOutcome.transient) →
      download_tess_data env 3 = ⟨none, 3, 9⟩) ∧
    (∀ (env : Nat → AttemptOutcome) (k : Nat) (p : String), k < 3 →
      (∀ i, i < k → env i = AttemptOutcome.transient) →
      env k = AttemptOutcome.success p →
      download_tess_data env 3 =
        ⟨some p, k + 1, ∑ i in Finset.range k, 3 * (i + 1)⟩) := by
  refine ⟨fun env => downloadFrom_attemptsMade_le env 3 3 0, ?_, ?_⟩
  · intro env h
    have h0 := h 0 (by omega)
    have h1 := h 1 (by omega)
    have h2 := h 2 (by omega)
    simp [download_tess_data, downloadFrom, h0, h1, h2]
  · intro env k p hk hfail hsucc
    interval_cases k
    · simp [download_tess_data, downloadFrom, hsucc]
    · have h0 := hfail 0 (by omega)
      simp [download_tess_data, downloadFrom, h0, hsucc]
    · have h0 := hfail 0 (by omega)
      have h1 := hfail 1 (by omega)
      simp [download_tess_data, downloadFrom, h0, h1, hsucc,
        Finset.sum_range_succ]

/-- Witness for `download_retry_backoff` at a concrete environment: one
transient failure followed by a success on the 2nd attempt yields the path
after a single 3-second backoff. -/
theorem download_retry_backoff_witness :
    download_tess_data
      (fun i => if i = 0 then AttemptOutcome.transient
                else AttemptOutcome.success "p") 3 =
      ⟨some "p", 2, 3⟩ := by
  have h := download_retry_backoff.2.2
    (fun i => if i = 0 then AttemptOutcome.transient
              else AttemptOutcome.success "p") 1 "p"
    (by omega)
    (by intro i hi; interval_cases i; simp)
    (by simp)
  simpa using h

/-- C5.  A search with zero matches on the first attempt makes
`download_tess_data` return `None` at once: one attempt, no retry, no
backoff sleep; and the sink leaves its state untouched on a `None` result,
so no record is written for that item. -/
theorem download_no_data_immediate :
    (∀ env : Nat → AttemptOutcome, env 0 = AttemptOutcome.noData →
      download_tess_data env 3 = ⟨none, 1, 0⟩) ∧
    (∀ st : SinkState, sinkStep st none = st) := by
  constructor
  · intro env h
    simp [download_tess_data, downloadFrom, h]
  · intro st
    rfl

/-- Witness for `download_no_data_immediate` at the constant no-data
environment and the initial sink state. -/
theorem download_no_data_immediate_witness :
    download_tess_data (fun _ => AttemptOutcome.noData) 3 = ⟨none, 1, 0⟩ ∧
    sinkStep initState none = initState :=
  ⟨download_no_data_immediate.1 (fun _ => AttemptOutcome.noData) rfl,
   download_no_data_immediate.2 initState⟩

/-- C6.  A permanent-class exception (anything other than
`ConnectionError`/`TimeoutError`) on the first attempt makes
`download_tess_data` return `None` with exactly one attempt made: no retry
and no backoff sleep. -/
theorem download_permanent_no_retry (env : Nat → AttemptOutcome)
    (h : env 0 = AttemptOutcome.permanent) :
    download_tess_data env 3 = ⟨none, 1, 0⟩ := by
  simp [download_tess_data, downloadFrom, h]

/-- Witness for `download_permanent_no_retry` at the constant
permanent-failure environment. -/
theorem download_permanent_no_retry_witness :
    download_tess_data (fun _ => AttemptOutcome.permanent) 3 =
      ⟨none, 1, 0⟩ :=
  download_permanent_no_retry (fun _ => AttemptOutcome.permanent) rfl

/-- C4.  The work list keeps, in catalog order, exactly one item per
catalog row whose `Sectors` value is non-null and drops the null-sector
rows, as the three recursion equations show; on the catalog
`[(100, "1,2"), (200, None), (300, "5")]` it equals
`[(100, "1,2"), (300, "5")]`. -/
theorem work_list_filters_null_sectors :
    buildTasks [] = [] ∧
    (∀ (tic : Nat) (rest : List (Nat × Option String)),
      buildTasks ((tic, (none : Option String)) :: rest) =
        buildTasks rest) ∧
    (∀ (tic : Nat) (s : String) (rest : List (Nat × Option String)),
      buildTasks ((tic, some s) :: rest) = (tic, s) :: buildTasks rest) ∧
    buildTasks [(100, some "1,2"), (200, none), (300, some "5")] =
      [(100, "1,2"), (300, "5")] := by
  refine ⟨rfl, fun tic rest => ?_, fun tic s rest => ?_, rfl⟩ <;>
    simp [buildTasks]

theorem hasKey_false_iff (t : Table) (tic : Nat) (sec : String) :
    hasKey t tic sec = false ↔
      ∀ r ∈ t, ¬(r.TIC = tic ∧ r.sector = sec) := by
  simp [hasKey, rowMatches, List.any_eq_true, not_and]

theorem upsert_preserves_uniqueKeys (t : Table) (nid tic : Nat)
    (sec pa : String) (h : UniqueKeys t) :
    UniqueKeys (upsert t nid tic sec pa).1 := by
  unfold upsert
  by_cases hk : hasKey t tic sec
  · simp only [hk, if_true]
    exact h.map _ (by
      intro a b hab
      rcases hab with hab | hab
      · left
        by_cases ha : rowMatches tic sec a <;>
          by_cases hb : rowMatches tic sec b <;> simp [ha, hb, hab]
      · right
        by_cases ha : rowMatches tic sec a <;>
          by_cases hb : rowMatches tic sec b <;> simp [ha, hb, hab])
  · simp only [hk, if_false, Bool.false_eq_true]
    rw [UniqueKeys, List.pairwise_append]
    refine ⟨h, List.pairwise_singleton _ _, ?_⟩
    intro a ha b hb
    have := (hasKey_false_iff t tic sec).1 (by simpa using hk) a ha
    simp only [List.mem_singleton] at hb
    subst hb
    by_cases htic : a.TIC = tic
    · right
      simp only [ne_eq]
      intro hsec
      exact this ⟨htic, hsec⟩
    · left
      simpa using htic

theorem applyAll_preserves_uniqueKeys (ops : List LCRecord) :
    ∀ (st : Table × Nat), UniqueKeys st.1 →
      UniqueKeys (applyAll st ops).1 := by
  induction ops with
  | nil => intro st h; exact h
  | cons op rest ih =>
    intro st h
    have hstep : UniqueKeys (upsert st.1 st.2 op.1 op.2.1 op.2.2).1 :=
      upsert_preserves_uniqueKeys st.1 st.2 op.1 op.2.1 op.2.2 h
    simpa [applyAll, List.foldl_cons] using
      ih (upsert st.1 st.2 op.1 op.2.1 op.2.2) hstep

/-- C1.  The `LightCurves` store upholds the `(TIC, sector)` uniqueness
invariant: a single upsert preserves it, hence after any sequence of sink
upserts from the fresh (empty) table at most one row exists per key; and
an upsert whose key conflicts with an existing row keeps the row count,
keeps every other row unchanged, and rewrites only the `path_to_fits`
field of the conflicting row (its `id`, `TIC` and `sector` survive). -/
theorem lightcurves_upsert_unique :
    (∀ (t : Table) (nid tic : Nat) (sec pa : String), UniqueKeys t →
      UniqueKeys (upsert t nid tic sec pa).1) ∧
    (∀ ops : List LCRecord, UniqueKeys (applyAll ([], 1) ops).1) ∧
    (∀ (t : Table) (nid tic : Nat) (sec pa : String),
      hasKey t tic sec = true →
      (upsert t nid tic sec pa).1.length = t.length ∧
      (∀ r ∈ t, ¬(r.TIC = tic ∧ r.sector = sec) →
        r ∈ (upsert t nid tic sec pa).1) ∧
      (∀ r ∈ t, r.TIC = tic → r.sector = sec →
        (⟨r.id, tic, sec, pa⟩ : Row) ∈ (upsert t nid tic sec pa).1)) := by
  refine ⟨upsert_preserves_uniqueKeys, ?_, ?_⟩
  · intro ops
    exact applyAll_preserves_uniqueKeys ops ([], 1) List.Pairwise.nil
  · intro t nid tic sec pa hk
    simp only [upsert, hk, if_true]
    refine ⟨List.length_map _ _, ?_, ?_⟩
    · intro r hr hne
      have hm : rowMatches tic sec r = false := by
        simp only [rowMatches, Bool.and_eq_false_iff, beq_eq_false_iff_ne,
          ne_eq]
        by_cases h1 : r.TIC = tic
        · by_cases h2 : r.sector = sec
          · exact absurd ⟨h1, h2⟩ hne
          · exact Or.inr h2
        · exact Or.inl h1
      have heq : (fun r => if rowMatches tic sec r then
          (⟨r.id, r.TIC, r.sector, pa⟩ : Row) else r) r = r := by
        simp [hm]
      exact heq ▸ List.mem_map_of_mem _ hr
    · intro r hr h1 h2
      have hm : rowMatches tic sec r = true := by
        simp [rowMatches, h1, h2]
      have heq : (fun r => if rowMatches tic sec r then
          (⟨r.id, r.TIC, r.sector, pa⟩ : Row) else r) r =
          ⟨r.id, tic, sec, pa⟩ := by
        simp only [hm, if_true]
        rw [h1, h2]
      exact heq ▸ List.mem_map_of_mem _ hr

/-- Witness for `lightcurves_upsert_unique` on a concrete two-row table:
a conflicting upsert keeps the keys and ids of both rows and rewrites
only the path of the conflicting row. -/
theorem lightcurves_upsert_unique_witness :
    UniqueKeys (applyAll ([], 1)
      [(7, "1", "a"), (8, "2", "b"), (7, "1", "c")]).1 ∧
    ((upsert [⟨1, 7, "1", "a"⟩, ⟨2, 8, "2", "b"⟩] 3 7 "1" "c").1.length =
      2 ∧
    (⟨1, 7, "1", "c"⟩ : Row) ∈
      (upsert [⟨1, 7, "1", "a"⟩, ⟨2, 8, "2", "b"⟩] 3 7 "1" "c").1) := by
  refine ⟨lightcurves_upsert_unique.2.1
    [(7, "1", "a"), (8, "2", "b"), (7, "1", "c")], ?_, ?_⟩
  · exact (lightcurves_upsert_unique.2.2
      [⟨1, 7, "1", "a"⟩, ⟨2, 8, "2", "b"⟩] 3 7 "1" "c" (by decide)).1
  · exact (lightcurves_upsert_unique.2.2
      [⟨1, 7, "1", "a"⟩, ⟨2, 8, "2", "b"⟩] 3 7 "1" "c" (by decide)).2.2
      ⟨1, 7, "1", "a"⟩ (by decide) rfl rfl

theorem sink_foldl_count_points :
    ∀ (rs : List (Option LCRecord)) (st : SinkState),
      (rs.foldl sinkStep st).count = st.count + (rs.filterMap id).length ∧
      (rs.foldl sinkStep st).commitPoints =
        st.commitPoints ++
          pointsBetween st.count (rs.filterMap id).length := by
  intro rs
  induction rs with
  | nil => intro st; simp [pointsBetween]
  | cons r rest ih =>
    intro st
    cases r with
    | none => simpa using ih st
    | some s =>
      have hstep : (sinkStep st (some s)).count = st.count + 1 ∧
          (sinkStep st (some s)).commitPoints =
            st.commitPoints ++
              (if (st.count + 1) % 100 = 0 then [st.count + 1] else []) := by
        by_cases hc : (st.count + 1) % 100 = 0 <;> simp [sinkStep, hc]
      obtain ⟨hc1, hc2⟩ := ih (sinkStep st (some s))
      constructor
      · simp only [List.foldl_cons, List.filterMap_cons, id]
        rw [hc1, hstep.1]
        simp
        omega
      · simp only [List.foldl_cons, List.filterMap_cons, id]
        rw [hc2, hstep.2, hstep.1]
        simp only [List.length_cons, pointsBetween, List.append_assoc]

theorem pointsBetween_eq_filterMap :
    ∀ (n c : Nat), pointsBetween c n =
      (List.range n).filterMap
        (fun k => if (c + k + 1) % 100 = 0 then some (c + k + 1)
          else none) := by
  intro n
  induction n with
  | zero => intro c; simp [pointsBetween]
  | succ m ih =>
    intro c
    rw [pointsBetween, List.range_succ_eq_map]
    rw [List.filterMap_cons, List.filterMap_map]
    have harg : (fun k => if (c + k + 1) % 100 = 0 then some (c + k + 1)
        else none) ∘ Nat.succ =
        (fun k => if (c + 1 + k + 1) % 100 = 0 then some (c + 1 + k + 1)
          else none) := by
      funext k
      have h : c + (k + 1) + 1 = c + 1 + k + 1 := by omega
      simp [Function.comp, Nat.succ_eq_add_one, h]
    rw [harg, ← ih (c + 1)]
    by_cases hc : (c + 1) % 100 = 0 <;> simp [hc]

/-- C3.  The sink commits exactly after the 100th, 200th, ... successfully
inserted record and once more at end of stream: for every stream of
results the sequence of `processed_count` values at commits is the
multiples of 100 up to the number of successes followed by the final
count; on a batch of 250 successes the commits happen at counts 100, 200
and 250, and the full SQL trace is `BEGIN`, 100 inserts, `COMMIT`,
`BEGIN`, 100 inserts, `COMMIT`, `BEGIN`, 50 inserts, final `COMMIT` (a new
transaction is opened after each mid-stream commit). -/
theorem sink_commit_batching :
    (∀ results : List (Option LCRecord),
      (runSink results).commitPoints =
        (List.range (results.filterMap id).length).filterMap
          (fun k => if (k + 1) % 100 = 0 then some (k + 1) else none) ++
          [(results.filterMap id).length]) ∧
    (runSink batch250).commitPoints = [100, 200, 250] ∧
    (runSink batch250).events = expected250 := by
  refine ⟨?_, by decide, by decide⟩
  intro results
  have h := sink_foldl_count_points results initState
  simp only [runSink, finalCommit, consumeResults]
  rw [h.2, h.1]
  rw [pointsBetween_eq_filterMap]
  simp [initState]

theorem sink_foldl_table :
    ∀ (rs : List (Option LCRecord)) (st : SinkState) (s : List LCRecord),
      st.count = s.length →
      (st.table, st.nextId) = applyAll ([], 1) s →
      st.committed =
        (applyAll ([], 1) (s.take (100 * (s.length / 100)))).1 →
      (rs.foldl sinkStep st).count = (s ++ rs.filterMap id).length ∧
      ((rs.foldl sinkStep st).table, (rs.foldl sinkStep st).nextId) =
        applyAll ([], 1) (s ++ rs.filterMap id) ∧
      (rs.foldl sinkStep st).committed =
        (applyAll ([], 1) ((s ++ rs.filterMap id).take
          (100 * ((s ++ rs.filterMap id).length / 100)))).1 := by
  intro rs
  induction rs with
  | nil =>
    intro st s h1 h2 h3
    simp only [List.foldl_nil, List.filterMap_nil, List.append_nil]
    exact ⟨h1, h2, h3⟩
  | cons r rest ih =>
    intro st s h1 h2 h3
    cases r with
    | none =>
      simpa using ih st s h1 h2 h3
    | some x =>
      have happ : applyAll ([], 1) (s ++ [x]) =
          upsert st.table st.nextId x.1 x.2.1 x.2.2 := by
        rw [applyAll, List.foldl_append]
        rw [applyAll] at h2
        rw [← h2]
        rfl
      have hlen : (s ++ [x]).length = s.length + 1 := by simp
      have h1' : (sinkStep st (some x)).count = (s ++ [x]).length := by
        by_cases hc : (s.length + 1) % 100 = 0 <;>
          simp [sinkStep, h1, hc]
      have h2' : ((sinkStep st (some x)).table,
          (sinkStep st (some x)).nextId) = applyAll ([], 1) (s ++ [x]) := by
        rw [happ]
        by_cases hc : (s.length + 1) % 100 = 0 <;> simp [sinkStep, h1, hc]
      have h3' : (sinkStep st (some x)).committed =
          (applyAll ([], 1) ((s ++ [x]).take
            (100 * ((s ++ [x]).length / 100)))).1 := by
        by_cases hc : (s.length + 1) % 100 = 0
        · have hmul : 100 * ((s.length + 1) / 100) = s.length + 1 := by
            omega
          rw [hlen, hmul]
          have htake : (s ++ [x]).take (s.length + 1) = s ++ [x] := by
            rw [← hlen]
            exact List.take_length _
          rw [htake, happ]
          simp [sinkStep, h1, hc]
        · have hdiv : (s.length + 1) / 100 = s.length / 100 := by
            omega
          rw [hlen, hdiv]
          have htake : (s ++ [x]).take (100 * (s.length / 100)) =
              s.take (100 * (s.length / 100)) := by
            rw [List.take_append_eq_append_take]
            have hz : 100 * (s.length / 100) - s.length = 0 := by omega
            rw [hz]
            simp
          rw [htake]
          simp [sinkStep, h1, hc, h3]
      have hrec := ih (sinkStep st (some x)) (s ++ [x]) h1' h2' h3'
      simp only [List.foldl_cons, List.filterMap_cons, id] at *
      rw [List.append_cons]
      exact hrec

/-- C8.  Every run closes the database connection exactly once, on every
exit path; a normal run persists all successful upserts (the final commit
flushes everything); and a run interrupted (or failed) after `k` results
keeps exactly the data of the already-committed batches — the first
`100 * ⌊c / 100⌋` successes, where `c` counts the successes among the
first `k` results — so committed batches are never rolled back. -/
theorem connection_closed_once_and_commits_persist :
    (∀ env : RunEnv, (mainRun env).closeCount = 1) ∧
    (∀ results : List (Option LCRecord),
      (runSink results).committed =
        (applyAll ([], 1) (results.filterMap id)).1) ∧
    (∀ (results : List (Option LCRecord)) (k : Nat),
      (consumeResults (results.take k)).committed =
        (applyAll ([], 1)
          (((results.take k).filterMap id).take
            (100 * (((results.take k).filterMap id).length / 100)))).1) ∧
    (∀ (env : RunEnv) (df : Df) (k : Nat),
      env.toisRead = some df →
      env.exit = ExitMode.interruptedAfter k →
      (mainRun env).persisted =
        (applyAll ([], 1)
          (((((buildTasks (get_exo_tic_sectors env.workRead)).map
              (worker env.wenv)).take k).filterMap id).take
            (100 * (((((buildTasks (get_exo_tic_sectors
              env.workRead)).map (worker env.wenv)).take
                k).filterMap id).length / 100)))).1) := by
  refine ⟨?_, ?_, ?_, ?_⟩
  · intro env
    obtain ⟨p, tr, wr, we, ex⟩ := env
    cases tr with
    | none => rfl
    | some df => cases ex <;> rfl
  · intro results
    have h := sink_foldl_table results initState [] rfl rfl rfl
    have htab := congrArg Prod.fst h.2.1
    simpa [runSink, finalCommit, consumeResults] using htab
  · intro results k
    have h := sink_foldl_table (results.take k) initState [] rfl rfl rfl
    simpa [consumeResults] using h.2.2
  · intro env df k h1 h2
    obtain ⟨p, tr, wr, we, ex⟩ := env
    simp only at h1 h2
    subst h1
    subst h2
    have h := sink_foldl_table
      (((buildTasks (get_exo_tic_sectors wr)).map (worker we)).take k)
      initState [] rfl rfl rfl
    simpa [mainRun, consumeResults] using h.2.2

/-- Witness for `connection_closed_once_and_commits_persist` on a run
interrupted after its single successful result: the open batch had not
been committed, so the durable table is empty, and the connection still
closed once. -/
theorem connection_closed_once_and_commits_persist_witness :
    (mainRun envInterrupted).persisted = [] ∧
    (mainRun envInterrupted).closeCount = 1 := by
  constructor
  · have h := connection_closed_once_and_commits_persist.2.2.2
      envInterrupted dfSmall 1 rfl rfl
    rw [h]
    decide
  · exact connection_closed_once_and_commits_persist.1 envInterrupted

/-- Counterexample to C7 as stated.  When reading the catalog input file
fails, the `pd.read_csv` call of `main` itself — run before `get_exo_tic_sectors`
is ever called — raises first, so the run does NOT initialize the metadata
snapshot table: after the run the `TOIs` table is still absent
(`tois = none`), refuting the claim that the run "nevertheless initializes
the store schema and the metadata snapshot table".  The rest of the
claimed behaviour does hold on this input: empty work list, schema
created, zero downloaded records, connection closed. -/
theorem catalog_failure_no_metadata :
    (mainRun envReadFail).tois = none ∧
    (mainRun envReadFail).workList = [] ∧
    (mainRun envReadFail).schemaCreated = true ∧
    (mainRun envReadFail).persisted = [] ∧
    (mainRun envReadFail).closeCount = 1 :=
  ⟨rfl, rfl, rfl, rfl, rfl⟩

/-- C7 (amended).  The catalog loader `get_exo_tic_sectors` itself fails
softly, returning an empty work list instead of raising.  But a failure of
the file read aborts `main` at its own earlier `pd.read_csv`: the run then
has the schema created, an empty work list, zero downloaded records and a
closed connection, while the metadata snapshot table is left untouched.
Only when the read in `main` succeeds and the read or parse in the loader fails
does the run initialize both the schema and the metadata table while
producing zero downloaded records. -/
theorem catalog_failure_soft_empty_run :
    get_exo_tic_sectors none = [] ∧
    (∀ env : RunEnv, env.toisRead = none →
      mainRun env = ⟨true, env.priorTois, [], [], 1⟩) ∧
    (∀ (env : RunEnv) (df : Df), env.toisRead = some df →
      env.workRead = none →
      (mainRun env).workList = [] ∧
      (mainRun env).tois = some (selectFeatures df) ∧
      (mainRun env).persisted = [] ∧
      (mainRun env).schemaCreated = true ∧
      (mainRun env).closeCount = 1) := by
  refine ⟨rfl, ?_, ?_⟩
  · intro env h
    obtain ⟨p, tr, wr, we, ex⟩ := env
    simp only at h
    subst h
    rfl
  · intro env df h1 h2
    obtain ⟨p, tr, wr, we, ex⟩ := env
    simp only at h1 h2
    subst h1
    subst h2
    cases ex <;>
      simp [mainRun, buildTasks, get_exo_tic_sectors, consumeResults,
        runSink, finalCommit, initState, toSqlReplace, List.take_nil]

/-- Witness for `catalog_failure_soft_empty_run`: a failing read with a
leftover `TOIs` snapshot ends the run with that snapshot untouched, an
empty work list, no rows, and one close. -/
theorem catalog_failure_soft_empty_run_witness :
    mainRun envReadFailPrior = ⟨true, some dfPrior, [], [], 1⟩ :=
  catalog_failure_soft_empty_run.2.1 envReadFailPrior rfl

/-- C9.  Whenever the catalog read in `main` succeeds, the `TOIs` table
after the run is exactly the catalog projected onto all columns except
`Sectors`: the column list is the input columns with `Sectors` filtered
out, there is one row per catalog entry, and the result is independent of
whatever any prior run left in the table (wholesale replacement). -/
theorem tois_replaced_each_run :
    (∀ (env : RunEnv) (df : Df), env.toisRead = some df →
      (mainRun env).tois = some (selectFeatures df)) ∧
    (∀ df : Df, (selectFeatures df).columns =
      df.columns.filter (fun c => c != "Sectors")) ∧
    (∀ df : Df, (selectFeatures df).rows.length = df.rows.length) ∧
    (∀ (env env' : RunEnv) (df : Df), env.toisRead = some df →
      env'.toisRead = some df →
      (mainRun env).tois = (mainRun env').tois) := by
  have hmain : ∀ (env : RunEnv) (df : Df), env.toisRead = some df →
      (mainRun env).tois = some (selectFeatures df) := by
    intro env df h
    obtain ⟨p, tr, wr, we, ex⟩ := env
    simp only at h
    subst h
    cases ex <;> rfl
  refine ⟨hmain, fun df => rfl, ?_, ?_⟩
  · intro df
    simp [selectFeatures]
  · intro env env' df h h'
    rw [hmain env df h, hmain env' df h']

/-- Witness for `tois_replaced_each_run` on the concrete one-row catalog:
the persisted metadata table holds the `tic_id` and `mag` columns but not
`Sectors`, even though the read inside the loader failed in this run. -/
theorem tois_replaced_each_run_witness :
    (mainRun envParseFail).tois =
      some ⟨["tic_id", "mag"], [["5", "9"]]⟩ := by
  have h := tois_replaced_each_run.1 envParseFail dfSmall rfl
  rw [h]
  decide

theorem sink_insert_mem :
    ∀ (rs : List (Option LCRecord)) (st : SinkState) (tic : Nat)
      (sec pa : String),
      SinkEvent.insert tic sec pa ∈ (rs.foldl sinkStep st).events →
      SinkEvent.insert tic sec pa ∈ st.events ∨
        some (tic, sec, pa) ∈ rs := by
  intro rs
  induction rs with
  | nil => intro st tic sec pa h; exact Or.inl h
  | cons r rest ih =>
    intro st tic sec pa h
    rw [List.foldl_cons] at h
    rcases ih (sinkStep st r) tic sec pa h with h' | h'
    · cases r with
      | none => exact Or.inl h'
      | some x =>
        by_cases hc : (st.count + 1) % 100 = 0
        · simp [sinkStep, hc] at h'
          rcases h' with h'' | ⟨h3, h4, h5⟩
          · exact Or.inl h''
          · right
            subst h3
            subst h4
            subst h5
            simp
        · simp [sinkStep, hc] at h'
          rcases h' with h'' | ⟨h3, h4, h5⟩
          · exact Or.inl h''
          · right
            subst h3
            subst h4
            subst h5
            simp
    · exact Or.inr (List.mem_cons_of_mem r h')

theorem worker_some_keys (wenv : Nat × String → WorkerEnv)
    (task : Nat × String) (r : Nat × String × String)
    (h : worker wenv task = some r) :
    r.1 = task.1 ∧ r.2.1 = task.2 := by
  unfold worker at h
  cases hdl : (download_tess_data (wenv task).attempts 3).result with
  | none => rw [hdl] at h; simp at h
  | some path =>
    rw [hdl] at h
    by_cases hex : (wenv task).filenameExn
    · simp [hex] at h
    · simp [hex] at h
      rw [← h]
      exact ⟨rfl, rfl⟩

theorem worker_none_or_some (wenv : Nat × String → WorkerEnv)
    (task : Nat × String) :
    worker wenv task = none ∨
      ∃ p, worker wenv task = some (task.1, task.2, p) := by
  unfold worker
  cases hdl : (download_tess_data (wenv task).attempts 3).result with
  | none => exact Or.inl rfl
  | some path =>
    by_cases hex : (wenv task).filenameExn
    · left
      simp [hex]
    · right
      exact ⟨path, by simp [hex]⟩

/-- C10.  A worker result, when present, is the triple
`(tic, sector, path)` whose first two components are exactly the input
identifier and sector-spec of the input task; the worker never raises (it is total:
every result is `none` or `some (task.1, task.2, path)`); and hence every
insert the sink performs while consuming worker results — in any
completion order drawn from the task list — is keyed by the identifier and
sector-spec of some work item. -/
theorem worker_result_keys :
    (∀ (wenv : Nat × String → WorkerEnv) (task : Nat × String)
        (r : Nat × String × String),
      worker wenv task = some r → r.1 = task.1 ∧ r.2.1 = task.2) ∧
    (∀ (wenv : Nat × String → WorkerEnv) (task : Nat × String),
      worker wenv task = none ∨
        ∃ p, worker wenv task = some (task.1, task.2, p)) ∧
    (∀ (tasks : List (Nat × String)) (wenv : Nat × String → WorkerEnv)
        (rs : List (Option LCRecord)),
      (∀ r ∈ rs, ∃ t ∈ tasks, r = worker wenv t) →
      ∀ (tic : Nat) (sec pa : String),
        SinkEvent.insert tic sec pa ∈ (runSink rs).events →
        (tic, sec) ∈ tasks) := by
  refine ⟨worker_some_keys, worker_none_or_some, ?_⟩
  intro tasks wenv rs hall tic sec pa hmem
  have h1 : SinkEvent.insert tic sec pa ∈ (consumeResults rs).events := by
    simp only [runSink, finalCommit, List.mem_append,
      List.mem_singleton] at hmem
    rcases hmem with h | h
    · exact h
    · exact absurd h (by simp)
  have h2 := sink_insert_mem rs initState tic sec pa h1
  rcases h2 with h | h
  · exact absurd h (by simp [initState])
  · obtain ⟨t, ht, heq⟩ := hall _ h
    obtain ⟨htic, hsec⟩ := worker_some_keys wenv t (tic, sec, pa) heq.symm
    have hts : (tic, sec) = t := Prod.ext htic hsec
    rw [hts]
    exact ht

/-- Witness for `worker_result_keys` on the single task `(5, "2")` with a
first-attempt success: the worker result carries the key of the task and
the single insert of the sink is keyed by it. -/
theorem worker_result_keys_witness :
    worker wenvAllSuccess (5, "2") = some (5, "2", "p") ∧
    ((5 : Nat), "2") ∈ [((5 : Nat), "2")] := by
  constructor
  · decide
  · refine worker_result_keys.2.2 [(5, "2")] wenvAllSuccess
      [some (5, "2", "p")] ?_ 5 "2" "p" (by decide)
    intro r hr
    simp at hr
    subst hr
    exact ⟨(5, "2"), by simp, by decide⟩

end DownloadLCS
